/-
Verification of the input/shortcut subsystem of the Majin engine
(src/Engine/Input.ts), as a shallow embedding in Lean 4.

Modelling conventions:
* JS `Set` objects (`keysPressed`, `activeShortcuts`) are embedded as
  duplicate-free `List`s with insertion-order `add` and `delete`.
* Callbacks are identified by a `Nat` token standing for JS reference
  identity; shortcut-callback invocations are recorded in an output trace
  rather than executed.  Listener dispatch with exceptions (`fireEvent`)
  is modelled separately with behaviours in `Except`.
* A possibly-non-string JS value is embedded as `Option String`
  (`none` = `undefined` or a non-string value).
* `Date.now()` timestamps, mouse `position`/`delta` payload fields and the
  `preventDefault`/`stopPropagation` native-event side effects carry no
  information relevant to the verified properties and are omitted from the
  `InputObject` projection; everything else follows the source line by line.
* JS string primitives are embedded as kernel-computable functions on the
  character data (`jsToLower`, `jsToUpper`, `jsStartsWith`, `jsJoin`,
  `jsStrLe`); JS `Array#sort()` (lexicographic, stable) is embedded as
  `List.insertionSort` over `jsStrLe`, which is proved below to agree with
  Mathlib's linear order on `String`.
-/
import Mathlib

set_option maxHeartbeats 1000000

/-- Embeds JS `String.prototype.toLowerCase` (per-character, the
identifiers involved are ASCII). -/
def jsToLower (s : String) : String :=
  ⟨s.data.map Char.toLower⟩

/-- Embeds JS `String.prototype.toUpperCase` (per-character). -/
def jsToUpper (s : String) : String :=
  ⟨s.data.map Char.toUpper⟩

/-- Embeds JS `String.prototype.startsWith`. -/
def jsStartsWith (s p : String) : Bool :=
  p.data.isPrefixOf s.data

/-- Embeds JS single-character access `s[0]` (used only on length-1 strings). -/
def jsFront (s : String) : Char :=
  s.data.headD ' '

/-- Embeds JS `Array.prototype.join(sep)`. -/
def jsJoin (sep : String) : List String → String
  | [] => ""
  | [x] => x
  | x :: xs => x ++ sep ++ jsJoin sep xs

/-- Lexicographic (code-point) comparison on character lists, the order
JS `Array.prototype.sort()` uses on its string elements. -/
def jsLtChars : List Char → List Char → Bool
  | [], [] => false
  | [], _ :: _ => true
  | _ :: _, [] => false
  | a :: as, b :: bs =>
    if a < b then true
    else if b < a then false
    else jsLtChars as bs

/-- The non-strict form of `jsLtChars`, on strings. -/
def jsStrLe (a b : String) : Bool :=
  !jsLtChars b.data a.data

/-- The `InputType` enum from the source (gamepad/touch variants kept). -/
inductive InputType where
  | Keyboard
  | MouseButton
  | MouseMovement
  | Touch
  | Gamepad
  | Focus
deriving DecidableEq, Repr

/-- The `InputState` enum from the source. -/
inductive InputState where
  | Begin
  | Change
  | End
deriving DecidableEq, Repr

/-- Projection of the source's `InputObject` to the fields the verified
properties observe (`type`, `state`, `keyCode`). -/
structure InputObject where
  type : InputType
  state : InputState
  keyCode : Option String
deriving DecidableEq, Repr

/-- The target element of a native DOM event, as far as
`isGameProcessedEvent` inspects it. -/
structure KeyTarget where
  tagName : String
  isContentEditable : Bool
deriving DecidableEq, Repr

/-- A native `KeyboardEvent`: `code` and `key` may be absent/non-string
(`none`); `target` may be `null`. -/
structure KeyboardEvent where
  code : Option String
  key : Option String
  target : Option KeyTarget
deriving DecidableEq, Repr

/-- The `ShortcutOptions` record after defaulting (the source's `Required<ShortcutOptions>`). -/
structure ShortcutOptions where
  allowWhileTyping : Bool
  preventDefault : Bool
  stopPropagation : Bool
  fireOnEnd : Bool
deriving DecidableEq, Repr

/-- A registered shortcut binding.  `callback` is a reference-identity token. -/
structure ShortcutBinding where
  id : String
  keys : List String
  callback : Nat
  options : ShortcutOptions
deriving DecidableEq, Repr

/-- The mutable state of the `InputService` singleton (the fields the
keyboard/focus handlers read or write). -/
structure InputServiceState where
  keysPressed : List String
  mouseButtonsPressed : List Int
  lastMousePosition : Int × Int
  shortcuts : List ShortcutBinding
  activeShortcuts : List String
deriving DecidableEq, Repr

/-- Embeds JS `Set.add`: append if not already present. -/
def setAdd (l : List String) (k : String) : List String :=
  if l.contains k then l else l ++ [k]

/-- Embeds JS `Set.delete`: remove the entry (lists are kept duplicate-free). -/
def setDelete (l : List String) (k : String) : List String :=
  l.filter (fun x => x != k)

/-- Embeds `isGameProcessedEvent` (source lines 406–419): the event target is a
form input, textarea, select, button, or content-editable element. -/
def isGameProcessedEvent (target : Option KeyTarget) : Bool :=
  match target with
  | none => false
  | some t =>
    let tagName := jsToLower t.tagName
    tagName == "input" || tagName == "textarea" || tagName == "select" ||
      tagName == "button" || t.isContentEditable

/-- Embeds the fallback chain of `getKeyboardCode` (source lines 489–503):
inspect `e.key`, passing `Arrow*` through, mapping single ASCII letters to
`Key<UPPER>` and digits to `Digit<N>`, else returning the key itself;
`null` when `key` is absent or empty. -/
def getKeyboardCodeFallback (key : Option String) : Option String :=
  match key with
  | none => none
  | some k =>
    if k.length == 0 then none
    else if jsStartsWith k "Arrow" then some k
    else if k.length == 1 then
      if (jsFront k).isAlpha then some ("Key" ++ jsToUpper k)
      else if (jsFront k).isDigit then some ("Digit" ++ k)
      else some k
    else some k

/-- Embeds `getKeyboardCode` (source lines 485–504): prefer a non-empty
`e.code`, else the fallback chain above. -/
def getKeyboardCode (e : KeyboardEvent) : Option String :=
  match e.code with
  | some c => if c.length > 0 then some c else getKeyboardCodeFallback e.key
  | none => getKeyboardCodeFallback e.key

/-- Embeds `IsKeyPressed` (source lines 166–169).  The argument is
`Option String` so that a non-string caller value is representable. -/
def IsKeyPressed (s : InputServiceState) (keyCode : Option String) : Bool :=
  match keyCode with
  | none => false
  | some k => if k.length == 0 then false else s.keysPressed.contains (jsToLower k)

/-- First-occurrence de-duplication, the semantics of
`Array.from(new Set(xs))`. -/
def dedupFirstAux (seen : List String) : List String → List String
  | [] => []
  | x :: xs =>
    if seen.contains x then dedupFirstAux seen xs
    else x :: dedupFirstAux (x :: seen) xs

/-- Embeds `Array.from(new Set(xs))`. -/
def dedupFirst (l : List String) : List String :=
  dedupFirstAux [] l

/-- Embeds `normalizeShortcutKeys` (source lines 421–431): keep non-empty string
entries, lower-case, sort, de-duplicate. -/
def normalizeShortcutKeys (keys : List (Option String)) : List String :=
  let normalized :=
    ((keys.filterMap (fun k =>
        match k with
        | some s => if s.length > 0 then some s else none
        | none => none)).map jsToLower).insertionSort (fun a b => jsStrLe a b = true)
  dedupFirst normalized

/-- Embeds `BindShortcut` (source lines 188–209). -/
def BindShortcut (s : InputServiceState) (keys : List (Option String))
    (callback : Nat) (options : ShortcutOptions) : InputServiceState :=
  let normalizedKeys := normalizeShortcutKeys keys
  if normalizedKeys.length == 0 then s
  else
    let binding : ShortcutBinding :=
      { id := jsJoin "+" normalizedKeys
        keys := normalizedKeys
        callback := callback
        options := options }
    { s with shortcuts := s.shortcuts ++ [binding] }

/-- Embeds `UnbindShortcut` (source lines 211–224).  `callback = none` embeds a
call without the optional callback argument. -/
def UnbindShortcut (s : InputServiceState) (keys : List (Option String))
    (callback : Option Nat) : InputServiceState :=
  let normalizedKeys := normalizeShortcutKeys keys
  if normalizedKeys.length == 0 then s
  else
    let id := jsJoin "+" normalizedKeys
    { s with
      shortcuts := s.shortcuts.filter (fun sc =>
        if sc.id != id then true
        else
          match callback with
          | none => false
          | some cb => sc.callback != cb)
      activeShortcuts := setDelete s.activeShortcuts id }

/-- One recorded shortcut-callback invocation: `index` is the position of
the binding in the shortcut list (object identity), `callback` its callback
token, and `keyCode`/`phase`/`gameProcessed` the arguments passed. -/
structure ShortcutCall where
  index : Nat
  callback : Nat
  phase : InputState
  keyCode : String
  gameProcessed : Bool
deriving DecidableEq, Repr

/-- The loop body of `checkShortcutsStatus` (source lines 438–482), folded
over the binding list; threads the `activeShortcuts` set (mutated before
the callback runs) and records invocations. -/
def checkShortcutsList (keysPressed : List String) (gp : Bool) :
    Nat → List ShortcutBinding → List String → List String × List ShortcutCall
  | _, [], active => (active, [])
  | i, sc :: rest, active =>
    if gp && !sc.options.allowWhileTyping then
      checkShortcutsList keysPressed gp (i + 1) rest active
    else
      let allPressed := sc.keys.all (fun k => keysPressed.contains k)
      let isActive := active.contains sc.id
      if allPressed && !isActive then
        let res := checkShortcutsList keysPressed gp (i + 1) rest (setAdd active sc.id)
        (res.1, ⟨i, sc.callback, InputState.Begin, sc.id, gp⟩ :: res.2)
      else if !allPressed && isActive then
        let res := checkShortcutsList keysPressed gp (i + 1) rest (setDelete active sc.id)
        (res.1,
          (if sc.options.fireOnEnd then [⟨i, sc.callback, InputState.End, sc.id, gp⟩] else [])
            ++ res.2)
      else
        checkShortcutsList keysPressed gp (i + 1) rest active

/-- Embeds `checkShortcutsStatus` (source lines 433–483). -/
def checkShortcutsStatus (s : InputServiceState) (e : KeyboardEvent) :
    InputServiceState × List ShortcutCall :=
  if s.shortcuts.length == 0 then (s, [])
  else
    let gp := isGameProcessedEvent e.target
    let res := checkShortcutsList s.keysPressed gp 0 s.shortcuts s.activeShortcuts
    ({ s with activeShortcuts := res.1 }, res.2)

/-- One `fireEvent(list, input, nativeEvent)` call on a listener list,
recorded as the notification the listeners receive. -/
structure Notification where
  input : InputObject
  gameProcessed : Bool
deriving DecidableEq, Repr

/-- The observable result of one native-event handler run: the new state,
the notifications fired on `InputBegan` / `InputEnded`, and the shortcut
callback invocations. -/
structure StepOut where
  state : InputServiceState
  began : List Notification
  ended : List Notification
  shortcutCalls : List ShortcutCall
deriving DecidableEq, Repr

/-- Embeds `handleKeyDown` (source lines 230–250). -/
def handleKeyDown (s : InputServiceState) (e : KeyboardEvent) : StepOut :=
  match getKeyboardCode e with
  | none => ⟨s, [], [], []⟩
  | some code =>
    let keyCode := jsToLower code
    let wasAlreadyPressed := s.keysPressed.contains keyCode
    let s1 := { s with keysPressed := setAdd s.keysPressed keyCode }
    let began :=
      if !wasAlreadyPressed then
        [⟨⟨InputType.Keyboard, InputState.Begin, some code⟩,
          isGameProcessedEvent e.target⟩]
      else []
    let res := checkShortcutsStatus s1 e
    ⟨res.1, began, [], res.2⟩

/-- Embeds `handleKeyUp` (source lines 252–268). -/
def handleKeyUp (s : InputServiceState) (e : KeyboardEvent) : StepOut :=
  match getKeyboardCode e with
  | none => ⟨s, [], [], []⟩
  | some code =>
    let keyCode := jsToLower code
    let s1 := { s with keysPressed := setDelete s.keysPressed keyCode }
    let ended :=
      [⟨⟨InputType.Keyboard, InputState.End, some code⟩,
        isGameProcessedEvent e.target⟩]
    let res := checkShortcutsStatus s1 e
    ⟨res.1, [], ended, res.2⟩

/-- Embeds `handleBlur` (source lines 362–374). -/
def handleBlur (s : InputServiceState) (target : Option KeyTarget) : StepOut :=
  let s1 := { s with
    keysPressed := []
    mouseButtonsPressed := []
    activeShortcuts := ([] : List String) }
  ⟨s1, [],
    [⟨⟨InputType.Focus, InputState.End, none⟩, isGameProcessedEvent target⟩], []⟩

/-- Embeds `handleFocus` (source lines 376–384). -/
def handleFocus (s : InputServiceState) (target : Option KeyTarget) : StepOut :=
  ⟨s, [⟨⟨InputType.Focus, InputState.Begin, none⟩, isGameProcessedEvent target⟩],
    [], []⟩

/-- A raw platform event of the kinds the verified properties exercise. -/
inductive RawEvent where
  | keydown : KeyboardEvent → RawEvent
  | keyup : KeyboardEvent → RawEvent
  | blur : Option KeyTarget → RawEvent
  | focus : Option KeyTarget → RawEvent
deriving DecidableEq, Repr

/-- Dispatch one raw event to its handler. -/
def step (s : InputServiceState) : RawEvent → StepOut
  | RawEvent.keydown e => handleKeyDown s e
  | RawEvent.keyup e => handleKeyUp s e
  | RawEvent.blur t => handleBlur s t
  | RawEvent.focus t => handleFocus s t

/-- State after processing a list of raw events in order. -/
def stateAfter (s : InputServiceState) (evs : List RawEvent) : InputServiceState :=
  evs.foldl (fun st e => (step st e).state) s

/-- The observable output of the `i`-th event of a run (meaningful for
`i < evs.length`). -/
def outAt (s : InputServiceState) (evs : List RawEvent) (i : Nat) : StepOut :=
  step (stateAfter s (evs.take i)) (evs.getD i (RawEvent.blur none))

/-- A listener registered on one of the `InputBegan`/`InputChanged`/
`InputEnded` lists: an identity token plus a behaviour that either returns
normally or throws (`Except.error`). -/
structure Listener where
  id : Nat
  behavior : InputObject → Bool → Except String Unit

/-- The record of one listener invocation inside `fireEvent`: who was
called, with what arguments, and the error message caught and logged (if
the listener threw). -/
structure DispatchRecord where
  listener : Nat
  input : InputObject
  gameProcessed : Bool
  errorLogged : Option String
deriving DecidableEq, Repr

/-- Embeds `fireEvent` (source lines 390–404): compute the
`gameProcessedEvent` flag once, then invoke every callback in order inside
`try`/`catch`, logging and swallowing errors.  The function returns the
full invocation trace; its (total) return type is the embedding of "the
dispatcher never propagates a callback error". -/
def fireEvent (callbacks : List Listener) (input : InputObject)
    (nativeTarget : Option KeyTarget) : List DispatchRecord :=
  let gameProcessedEvent := isGameProcessedEvent nativeTarget
  callbacks.map (fun callback =>
    match callback.behavior input gameProcessedEvent with
    | Except.ok _ => ⟨callback.id, input, gameProcessedEvent, none⟩
    | Except.error err => ⟨callback.id, input, gameProcessedEvent, some err⟩)

/- ### Bridge lemmas: the JS string order agrees with Mathlib's `String` order -/

theorem jsLtChars_iff_lex (a b : List Char) :
    jsLtChars a b = true ↔ List.Lex (· < ·) a b := by
  induction a generalizing b with
  | nil =>
    cases b with
    | nil => simp [jsLtChars]
    | cons y ys => simpa [jsLtChars] using List.Lex.nil
  | cons x xs ih =>
    cases b with
    | nil => simp [jsLtChars]
    | cons y ys =>
      by_cases hxy : x < y
      · simp [jsLtChars, hxy]
        exact List.Lex.rel hxy
      · by_cases hyx : y < x
        · simp [jsLtChars, hxy, hyx]
          intro h
          cases h with
          | cons h' => exact lt_irrefl x hyx
          | rel h' => exact hxy h'
        · have hxy' : x = y := le_antisymm (not_lt.mp hyx) (not_lt.mp hxy)
          subst hxy'
          simp [jsLtChars, hxy]
          rw [ih ys]
          constructor
          · intro h
            exact List.Lex.cons h
          · intro h
            cases h with
            | cons h' => exact h'
            | rel h' => exact absurd h' (lt_irrefl x)

theorem jsStrLe_iff_le (a b : String) : jsStrLe a b = true ↔ a ≤ b := by
  rw [String.le_iff_toList_le]
  have h1 : b.toList < a.toList ↔ List.Lex (· < ·) b.data a.data := Iff.rfl
  rw [jsStrLe, Bool.not_eq_true', ← Bool.not_eq_true, jsLtChars_iff_lex]
  rw [← h1]
  exact not_lt

theorem jsStrLe_refl (a : String) : jsStrLe a a = true :=
  (jsStrLe_iff_le a a).mpr le_rfl

instance jsStrLeTotal : IsTotal String (fun a b => jsStrLe a b = true) :=
  ⟨fun a b => by
    rw [jsStrLe_iff_le, jsStrLe_iff_le]
    exact le_total a b⟩

instance jsStrLeTrans : IsTrans String (fun a b => jsStrLe a b = true) :=
  ⟨fun a b c hab hbc => by
    rw [jsStrLe_iff_le] at hab hbc ⊢
    exact le_trans hab hbc⟩

/- ### Helper lemmas on the set embedding -/

theorem contains_iff_mem (l : List String) (x : String) :
    l.contains x = true ↔ x ∈ l := by
  induction l with
  | nil => simp
  | cons a as ih => simp [List.contains, List.elem_cons, ih]

theorem setAdd_contains_self (l : List String) (k : String) :
    (setAdd l k).contains k = true := by
  by_cases h : k ∈ l <;> simp [setAdd, h]

theorem setAdd_of_contains {l : List String} {k : String}
    (h : l.contains k = true) : setAdd l k = l := by
  have h' := (contains_iff_mem l k).mp h
  simp [setAdd, h']

theorem setAdd_contains_other (l : List String) (k x : String) (h : x ≠ k) :
    (setAdd l k).contains x = l.contains x := by
  by_cases hk : k ∈ l <;> by_cases hx : x ∈ l <;>
    simp [setAdd, hk, hx, h]

theorem setAdd_mono (l : List String) (k x : String)
    (h : l.contains x = true) : (setAdd l k).contains x = true := by
  by_cases hxk : x = k
  · rw [hxk]; exact setAdd_contains_self l k
  · rw [setAdd_contains_other l k x hxk]; exact h

theorem setDelete_contains_self (l : List String) (k : String) :
    (setDelete l k).contains k = false := by
  simp [setDelete, List.mem_filter]

theorem setDelete_contains_other (l : List String) (k x : String) (h : x ≠ k) :
    (setDelete l k).contains x = l.contains x := by
  by_cases hx : x ∈ l <;> simp [setDelete, List.mem_filter, hx, h]

theorem string_length_zero_eq_empty (s : String) (h : s.length = 0) : s = "" := by
  obtain ⟨d⟩ := s
  cases d with
  | nil => rfl
  | cons c cs => simp [String.length] at h

theorem string_beq_len_zero_false {s : String} (h : s ≠ "") :
    (s.length == 0) = false := by
  rw [beq_eq_false_iff_ne]
  intro h0
  exact h (string_length_zero_eq_empty s h0)

theorem string_append_ne_empty_left (p s : String) (hp : p ≠ "") : p ++ s ≠ "" := by
  obtain ⟨a⟩ := p
  obtain ⟨b⟩ := s
  intro h
  have hd : a ++ b = [] := congrArg String.data h
  rcases List.append_eq_nil.mp hd with ⟨ha, _⟩
  exact hp (by rw [ha])

/- ### Field-preservation lemmas for the handlers -/

theorem checkShortcutsStatus_keysPressed (s : InputServiceState) (e : KeyboardEvent) :
    (checkShortcutsStatus s e).1.keysPressed = s.keysPressed := by
  unfold checkShortcutsStatus
  split <;> rfl

theorem checkShortcutsStatus_shortcuts (s : InputServiceState) (e : KeyboardEvent) :
    (checkShortcutsStatus s e).1.shortcuts = s.shortcuts := by
  unfold checkShortcutsStatus
  split <;> rfl

theorem step_shortcuts (s : InputServiceState) (ev : RawEvent) :
    (step s ev).state.shortcuts = s.shortcuts := by
  cases ev with
  | keydown e =>
    show (handleKeyDown s e).state.shortcuts = s.shortcuts
    unfold handleKeyDown
    cases getKeyboardCode e with
    | none => rfl
    | some code => exact checkShortcutsStatus_shortcuts _ e
  | keyup e =>
    show (handleKeyUp s e).state.shortcuts = s.shortcuts
    unfold handleKeyUp
    cases getKeyboardCode e with
    | none => rfl
    | some code => exact checkShortcutsStatus_shortcuts _ e
  | blur t => rfl
  | focus t => rfl

theorem step_keydown_keysPressed (s : InputServiceState) (e : KeyboardEvent)
    (code : String) (h : getKeyboardCode e = some code) :
    (step s (RawEvent.keydown e)).state.keysPressed =
      setAdd s.keysPressed (jsToLower code) := by
  show (handleKeyDown s e).state.keysPressed = _
  unfold handleKeyDown
  rw [h]
  exact checkShortcutsStatus_keysPressed _ e

theorem step_keyup_keysPressed (s : InputServiceState) (e : KeyboardEvent)
    (code : String) (h : getKeyboardCode e = some code) :
    (step s (RawEvent.keyup e)).state.keysPressed =
      setDelete s.keysPressed (jsToLower code) := by
  show (handleKeyUp s e).state.keysPressed = _
  unfold handleKeyUp
  rw [h]
  exact checkShortcutsStatus_keysPressed _ e

/- ### Unfolding lemmas for the keyboard handlers -/

theorem handleKeyDown_some (s : InputServiceState) (e : KeyboardEvent) (code : String)
    (h : getKeyboardCode e = some code) :
    handleKeyDown s e =
      ⟨(checkShortcutsStatus
          { s with keysPressed := setAdd s.keysPressed (jsToLower code) } e).1,
        if !(s.keysPressed.contains (jsToLower code)) then
          [⟨⟨InputType.Keyboard, InputState.Begin, some code⟩,
            isGameProcessedEvent e.target⟩]
        else [],
        [],
        (checkShortcutsStatus
          { s with keysPressed := setAdd s.keysPressed (jsToLower code) } e).2⟩ := by
  unfold handleKeyDown
  rw [h]

theorem handleKeyUp_some (s : InputServiceState) (e : KeyboardEvent) (code : String)
    (h : getKeyboardCode e = some code) :
    handleKeyUp s e =
      ⟨(checkShortcutsStatus
          { s with keysPressed := setDelete s.keysPressed (jsToLower code) } e).1,
        [],
        [⟨⟨InputType.Keyboard, InputState.End, some code⟩,
          isGameProcessedEvent e.target⟩],
        (checkShortcutsStatus
          { s with keysPressed := setDelete s.keysPressed (jsToLower code) } e).2⟩ := by
  unfold handleKeyUp
  rw [h]

/- ### C2: totality of the keyboard-identifier derivation -/

theorem getKeyboardCodeFallback_ne_empty (k : String) (hk : k ≠ "") :
    ∃ s, getKeyboardCodeFallback (some k) = some s ∧ s ≠ "" := by
  have hlen := string_beq_len_zero_false hk
  by_cases h1 : jsStartsWith k "Arrow" = true
  · exact ⟨k, by simp [getKeyboardCodeFallback, hlen, h1], hk⟩
  · by_cases h2 : (k.length == 1) = true
    · by_cases h3 : (jsFront k).isAlpha = true
      · refine ⟨"Key" ++ jsToUpper k, ?_, ?_⟩
        · simp [getKeyboardCodeFallback, hlen, h1, h2, h3]
        · exact string_append_ne_empty_left "Key" _ (by decide)
      · by_cases h4 : (jsFront k).isDigit = true
        · refine ⟨"Digit" ++ k, ?_, ?_⟩
          · simp [getKeyboardCodeFallback, hlen, h1, h2, h3, h4]
          · exact string_append_ne_empty_left "Digit" _ (by decide)
        · exact ⟨k, by simp [getKeyboardCodeFallback, hlen, h1, h2, h3, h4], hk⟩
    · exact ⟨k, by simp [getKeyboardCodeFallback, hlen, h1, h2], hk⟩

/-- C2 (counterexample): the claim asserts the keyboard-identifier
derivation yields a non-empty identifier for EVERY raw keyboard event.  A
`KeyboardEvent` whose `code` and `key` are both the empty string (the DOM
defaults, e.g. `new KeyboardEvent("keydown")`) is mapped to `null` and the
event is dropped by `handleKeyDown`/`handleKeyUp`; no identifier is
derived. -/
theorem C2_counterexample :
    ¬ ∃ s, getKeyboardCode ⟨some "", some "", some ⟨"div", false⟩⟩ = some s ∧ s ≠ "" := by
  rintro ⟨s, hs, -⟩
  have hn : getKeyboardCode ⟨some "", some "", some ⟨"div", false⟩⟩ = none := rfl
  rw [hn] at hs
  exact Option.noConfusion hs

/-- C2 (amended): on every raw keyboard event in which at least one of the
physical `code` or the logical `key` is present as a non-empty string, the
derivation (prefer `code`, else the `key` fallback chain) produces some
non-empty identifier string. -/
theorem C2_keyboard_code_total (e : KeyboardEvent)
    (h : (∃ c, e.code = some c ∧ c ≠ "") ∨ (∃ k, e.key = some k ∧ k ≠ "")) :
    ∃ s, getKeyboardCode e = some s ∧ s ≠ "" := by
  rcases h with ⟨c, hc, hcne⟩ | ⟨k, hk, hkne⟩
  · have hpos : c.length > 0 := by
      rcases Nat.eq_zero_or_pos c.length with h0 | hp
      · exact absurd (string_length_zero_eq_empty c h0) hcne
      · exact hp
    exact ⟨c, by simp [getKeyboardCode, hc, hpos], hcne⟩
  · cases hcode : e.code with
    | none =>
      have hfb := getKeyboardCodeFallback_ne_empty k hkne
      rw [← hk] at hfb
      simpa [getKeyboardCode, hcode] using hfb
    | some c =>
      by_cases hpos : c.length > 0
      · refine ⟨c, by simp [getKeyboardCode, hcode, hpos], ?_⟩
        intro hce
        rw [hce] at hpos
        exact Nat.lt_irrefl 0 hpos
      · have hfb := getKeyboardCodeFallback_ne_empty k hkne
        rw [← hk] at hfb
        simpa [getKeyboardCode, hcode, hpos] using hfb

/-- Witness for C2 (amended) at a concrete event: `code = "KeyW"`. -/
theorem C2_witness :
    ((∃ c, (⟨some "KeyW", none, none⟩ : KeyboardEvent).code = some c ∧ c ≠ "") ∨
      (∃ k, (⟨some "KeyW", none, none⟩ : KeyboardEvent).key = some k ∧ k ≠ "")) ∧
    (∃ s, getKeyboardCode ⟨some "KeyW", none, none⟩ = some s ∧ s ≠ "") :=
  ⟨Or.inl ⟨"KeyW", rfl, by decide⟩,
    C2_keyboard_code_total ⟨some "KeyW", none, none⟩ (Or.inl ⟨"KeyW", rfl, by decide⟩)⟩

/- ### C9: listener isolation in fireEvent -/

theorem fireEvent_eq_map (callbacks : List Listener) (input : InputObject)
    (nativeTarget : Option KeyTarget) :
    fireEvent callbacks input nativeTarget = callbacks.map (fun c =>
      ⟨c.id, input, isGameProcessedEvent nativeTarget,
        match c.behavior input (isGameProcessedEvent nativeTarget) with
        | Except.ok _ => none
        | Except.error err => some err⟩) := by
  simp only [fireEvent]
  congr 1
  funext c
  cases c.behavior input (isGameProcessedEvent nativeTarget) <;> rfl

/-- C9: during dispatch of one event to a listener list in which some
listener throws, every listener (in particular every one registered after
the throwing one) is still invoked with the very same event and
`gameProcessedEvent` flag, in order; the dispatcher returns its full
invocation trace normally (the error is caught, logged in the trace, and
never propagates). -/
theorem C9_listener_isolation (callbacks : List Listener) (input : InputObject)
    (target : Option KeyTarget) (j : Nat) (hj : j < callbacks.length) (err : String)
    (hthrows : (callbacks.get ⟨j, hj⟩).behavior input (isGameProcessedEvent target) =
      Except.error err) :
    (fireEvent callbacks input target).map (fun r => r.listener) =
      callbacks.map (fun c => c.id) ∧
    ∀ r ∈ fireEvent callbacks input target,
      r.input = input ∧ r.gameProcessed = isGameProcessedEvent target := by
  rw [fireEvent_eq_map]
  constructor
  · rw [List.map_map]
    rfl
  · intro r hr
    rw [List.mem_map] at hr
    obtain ⟨c, hc, hceq⟩ := hr
    rw [← hceq]
    exact ⟨rfl, rfl⟩

/-- A listener whose behaviour always throws (for the C9 witness). -/
def throwingListener : Listener :=
  ⟨0, fun _ _ => Except.error "boom"⟩

/-- A listener whose behaviour always succeeds (for the C9 witness). -/
def okListener : Listener :=
  ⟨1, fun _ _ => Except.ok ()⟩

/-- Witness for C9: two listeners, the first throws, the second still
receives the event and the trace is complete. -/
theorem C9_witness :
    (([throwingListener, okListener].get ⟨0, by decide⟩).behavior
        ⟨InputType.Keyboard, InputState.Begin, some "KeyA"⟩
        (isGameProcessedEvent none) = Except.error "boom") ∧
    ((fireEvent [throwingListener, okListener]
        ⟨InputType.Keyboard, InputState.Begin, some "KeyA"⟩ none).map
          (fun r => r.listener) =
        [throwingListener, okListener].map (fun c => c.id) ∧
      ∀ r ∈ fireEvent [throwingListener, okListener]
          ⟨InputType.Keyboard, InputState.Begin, some "KeyA"⟩ none,
        r.input = ⟨InputType.Keyboard, InputState.Begin, some "KeyA"⟩ ∧
        r.gameProcessed = isGameProcessedEvent none) :=
  ⟨rfl, C9_listener_isolation [throwingListener, okListener]
    ⟨InputType.Keyboard, InputState.Begin, some "KeyA"⟩ none 0 (by decide) "boom" rfl⟩

/- ### C4: auto-repeat suppression -/

/-- C4: two consecutive key-down events for the same key (no intervening
End) with the key not previously held: the first fires exactly one
`InputBegan` notification; the second fires none, and its entire
observable effect is exactly the shortcut re-evaluation
(`checkShortcutsStatus`) on the unchanged state. -/
theorem C4_autorepeat_single_began (s : InputServiceState) (e1 e2 : KeyboardEvent)
    (c1 c2 : String) (h1 : getKeyboardCode e1 = some c1)
    (h2 : getKeyboardCode e2 = some c2) (hsame : jsToLower c2 = jsToLower c1)
    (hnotheld : s.keysPressed.contains (jsToLower c1) = false) :
    (step s (RawEvent.keydown e1)).began.length = 1 ∧
    (step s (RawEvent.keydown e1)).state =
      (checkShortcutsStatus
        { s with keysPressed := setAdd s.keysPressed (jsToLower c1) } e1).1 ∧
    (step s (RawEvent.keydown e1)).shortcutCalls =
      (checkShortcutsStatus
        { s with keysPressed := setAdd s.keysPressed (jsToLower c1) } e1).2 ∧
    (step (step s (RawEvent.keydown e1)).state (RawEvent.keydown e2)).began = [] ∧
    step (step s (RawEvent.keydown e1)).state (RawEvent.keydown e2) =
      ⟨(checkShortcutsStatus (step s (RawEvent.keydown e1)).state e2).1, [], [],
        (checkShortcutsStatus (step s (RawEvent.keydown e1)).state e2).2⟩ := by
  have s1k := step_keydown_keysPressed s e1 c1 h1
  have heldAfter : (step s (RawEvent.keydown e1)).state.keysPressed.contains
      (jsToLower c2) = true := by
    rw [hsame, s1k]
    exact setAdd_contains_self _ _
  have hsa : setAdd (step s (RawEvent.keydown e1)).state.keysPressed (jsToLower c2) =
      (step s (RawEvent.keydown e1)).state.keysPressed := setAdd_of_contains heldAfter
  have heldMem : jsToLower c2 ∈ (step s (RawEvent.keydown e1)).state.keysPressed :=
    (contains_iff_mem _ _).mp heldAfter
  have notMem : jsToLower c1 ∉ s.keysPressed := by
    intro hm
    rw [← contains_iff_mem] at hm
    rw [hm] at hnotheld
    exact Bool.noConfusion hnotheld
  refine ⟨?_, ?_, ?_, ?_, ?_⟩
  · show (handleKeyDown s e1).began.length = 1
    rw [handleKeyDown_some s e1 c1 h1]
    simp [notMem]
  · show (handleKeyDown s e1).state = _
    rw [handleKeyDown_some s e1 c1 h1]
  · show (handleKeyDown s e1).shortcutCalls = _
    rw [handleKeyDown_some s e1 c1 h1]
  · show (handleKeyDown _ e2).began = []
    rw [handleKeyDown_some _ e2 c2 h2]
    simp [heldMem]
  · show handleKeyDown _ e2 = _
    rw [handleKeyDown_some _ e2 c2 h2, hsa]
    simp [heldMem]

/-- Witness for C4 at a concrete state and pair of key-down events. -/
theorem C4_witness :
    (getKeyboardCode ⟨some "KeyA", some "a", none⟩ = some "KeyA" ∧
      jsToLower "KeyA" = jsToLower "KeyA" ∧
      (⟨[], [], (0, 0), [], []⟩ : InputServiceState).keysPressed.contains
        (jsToLower "KeyA") = false) ∧
    ((step (⟨[], [], (0, 0), [], []⟩ : InputServiceState)
        (RawEvent.keydown ⟨some "KeyA", some "a", none⟩)).began.length = 1 ∧
      (step (⟨[], [], (0, 0), [], []⟩ : InputServiceState)
          (RawEvent.keydown ⟨some "KeyA", some "a", none⟩)).state =
        (checkShortcutsStatus
          { (⟨[], [], (0, 0), [], []⟩ : InputServiceState) with
            keysPressed := setAdd [] (jsToLower "KeyA") } ⟨some "KeyA", some "a", none⟩).1 ∧
      (step (⟨[], [], (0, 0), [], []⟩ : InputServiceState)
          (RawEvent.keydown ⟨some "KeyA", some "a", none⟩)).shortcutCalls =
        (checkShortcutsStatus
          { (⟨[], [], (0, 0), [], []⟩ : InputServiceState) with
            keysPressed := setAdd [] (jsToLower "KeyA") } ⟨some "KeyA", some "a", none⟩).2 ∧
      (step (step (⟨[], [], (0, 0), [], []⟩ : InputServiceState)
          (RawEvent.keydown ⟨some "KeyA", some "a", none⟩)).state
        (RawEvent.keydown ⟨some "KeyA", some "a", none⟩)).began = [] ∧
      step (step (⟨[], [], (0, 0), [], []⟩ : InputServiceState)
          (RawEvent.keydown ⟨some "KeyA", some "a", none⟩)).state
        (RawEvent.keydown ⟨some "KeyA", some "a", none⟩) =
        ⟨(checkShortcutsStatus (step (⟨[], [], (0, 0), [], []⟩ : InputServiceState)
            (RawEvent.keydown ⟨some "KeyA", some "a", none⟩)).state
            ⟨some "KeyA", some "a", none⟩).1, [], [],
          (checkShortcutsStatus (step (⟨[], [], (0, 0), [], []⟩ : InputServiceState)
            (RawEvent.keydown ⟨some "KeyA", some "a", none⟩)).state
            ⟨some "KeyA", some "a", none⟩).2⟩) :=
  ⟨⟨by decide, rfl, by decide⟩,
    C4_autorepeat_single_began ⟨[], [], (0, 0), [], []⟩
      ⟨some "KeyA", some "a", none⟩ ⟨some "KeyA", some "a", none⟩
      "KeyA" "KeyA" (by decide) (by decide) rfl (by decide)⟩

/- ### Lemmas about normalization (for C5, C6) -/

theorem contains_eq_false_of_not_mem {l : List String} {x : String} (h : x ∉ l) :
    l.contains x = false := by
  cases hc : l.contains x with
  | false => rfl
  | true => exact absurd ((contains_iff_mem l x).mp hc) h

theorem not_contains_of_not_mem {l : List String} {x : String} (h : x ∉ l) :
    ¬ (l.contains x = true) :=
  fun hc => h ((contains_iff_mem l x).mp hc)

theorem dedupFirstAux_mem (seen l : List String) (x : String) :
    x ∈ dedupFirstAux seen l ↔ x ∈ l ∧ x ∉ seen := by
  induction l generalizing seen with
  | nil => simp [dedupFirstAux]
  | cons a as ih =>
    by_cases ha : a ∈ seen
    · rw [show dedupFirstAux seen (a :: as) = dedupFirstAux seen as from by
        unfold dedupFirstAux
        rw [if_pos ((contains_iff_mem seen a).mpr ha)]
        cases as <;> rfl]
      rw [ih seen]
      constructor
      · rintro ⟨h1, h2⟩
        exact ⟨List.mem_cons_of_mem a h1, h2⟩
      · rintro ⟨h1, h2⟩
        rcases List.mem_cons.mp h1 with he | hm
        · exact absurd (he ▸ ha) h2
        · exact ⟨hm, h2⟩
    · rw [show dedupFirstAux seen (a :: as) = a :: dedupFirstAux (a :: seen) as from by
        unfold dedupFirstAux
        rw [if_neg (not_contains_of_not_mem ha)]
        cases as <;> rfl]
      rw [List.mem_cons, ih (a :: seen)]
      constructor
      · rintro (he | ⟨h1, h2⟩)
        · exact ⟨he ▸ List.mem_cons_self a as, he ▸ ha⟩
        · refine ⟨List.mem_cons_of_mem a h1, fun hs => h2 (List.mem_cons_of_mem a hs)⟩
      · rintro ⟨h1, h2⟩
        by_cases he : x = a
        · exact Or.inl he
        · rcases List.mem_cons.mp h1 with h | h
          · exact absurd h he
          · refine Or.inr ⟨h, fun hs => ?_⟩
            rcases List.mem_cons.mp hs with h' | h'
            · exact he h'
            · exact h2 h'

theorem dedupFirst_mem (l : List String) (x : String) :
    x ∈ dedupFirst l ↔ x ∈ l := by
  simp [dedupFirst, dedupFirstAux_mem]

theorem dedupFirstAux_sublist (seen l : List String) :
    (dedupFirstAux seen l).Sublist l := by
  induction l generalizing seen with
  | nil => simp [dedupFirstAux]
  | cons a as ih =>
    by_cases ha : a ∈ seen
    · rw [show dedupFirstAux seen (a :: as) = dedupFirstAux seen as from by
        unfold dedupFirstAux
        rw [if_pos ((contains_iff_mem seen a).mpr ha)]
        cases as <;> rfl]
      exact (ih seen).trans (List.sublist_cons_self a as)
    · rw [show dedupFirstAux seen (a :: as) = a :: dedupFirstAux (a :: seen) as from by
        unfold dedupFirstAux
        rw [if_neg (not_contains_of_not_mem ha)]
        cases as <;> rfl]
      exact List.Sublist.cons₂ a (ih (a :: seen))

theorem dedupFirstAux_nodup (seen l : List String) :
    (dedupFirstAux seen l).Nodup := by
  induction l generalizing seen with
  | nil => simp [dedupFirstAux]
  | cons a as ih =>
    by_cases ha : a ∈ seen
    · rw [show dedupFirstAux seen (a :: as) = dedupFirstAux seen as from by
        unfold dedupFirstAux
        rw [if_pos ((contains_iff_mem seen a).mpr ha)]
        cases as <;> rfl]
      exact ih seen
    · rw [show dedupFirstAux seen (a :: as) = a :: dedupFirstAux (a :: seen) as from by
        unfold dedupFirstAux
        rw [if_neg (not_contains_of_not_mem ha)]
        cases as <;> rfl]
      rw [List.nodup_cons]
      refine ⟨fun hm => ?_, ih (a :: seen)⟩
      rcases (dedupFirstAux_mem (a :: seen) as a).mp hm with ⟨-, hns⟩
      exact hns (List.mem_cons_self a seen)

theorem shortcutFilter_mem (keys : List (Option String)) (y : String) :
    y ∈ keys.filterMap (fun k =>
        match k with
        | some s => if s.length > 0 then some s else none
        | none => none) ↔ some y ∈ keys ∧ y ≠ "" := by
  rw [List.mem_filterMap]
  constructor
  · rintro ⟨a, ha, hfa⟩
    cases a with
    | none => exact absurd hfa (by simp)
    | some s =>
      by_cases hl : s.length > 0
      · simp only [hl, if_pos, Option.some.injEq] at hfa
        subst hfa
        refine ⟨ha, fun he => ?_⟩
        rw [he] at hl
        exact Nat.lt_irrefl 0 hl
      · simp [hl] at hfa
  · rintro ⟨hy, hne⟩
    refine ⟨some y, hy, ?_⟩
    have hl : y.length > 0 :=
      Nat.pos_of_ne_zero (fun h0 => hne (string_length_zero_eq_empty y h0))
    simp [hl]

theorem normalizeShortcutKeys_mem (keys : List (Option String)) (x : String) :
    x ∈ normalizeShortcutKeys keys ↔
      ∃ k, some k ∈ keys ∧ k ≠ "" ∧ x = jsToLower k := by
  simp only [normalizeShortcutKeys]
  rw [dedupFirst_mem, List.mem_insertionSort, List.mem_map]
  constructor
  · rintro ⟨y, hy, hxy⟩
    rcases (shortcutFilter_mem keys y).mp hy with ⟨h1, h2⟩
    exact ⟨y, h1, h2, hxy.symm⟩
  · rintro ⟨k, h1, h2, h3⟩
    exact ⟨k, (shortcutFilter_mem keys k).mpr ⟨h1, h2⟩, h3.symm⟩

theorem normalizeShortcutKeys_sorted (keys : List (Option String)) :
    List.Sorted (· ≤ ·) (normalizeShortcutKeys keys) := by
  simp only [normalizeShortcutKeys]
  have hs := List.sorted_insertionSort (fun a b => jsStrLe a b = true)
    ((keys.filterMap (fun k =>
        match k with
        | some s => if s.length > 0 then some s else none
        | none => none)).map jsToLower)
  have hd := List.Pairwise.sublist (dedupFirstAux_sublist [] _) hs
  exact hd.imp (fun h => (jsStrLe_iff_le _ _).mp h)

theorem normalizeShortcutKeys_nodup (keys : List (Option String)) :
    (normalizeShortcutKeys keys).Nodup :=
  dedupFirstAux_nodup [] _

/-- C5: `BindShortcut` stores a binding whose id is the canonical join of
the normalized key list (lower-cased, empty/non-string entries discarded,
duplicates collapsed, sorted, joined by `+`), appended to the shortcut
list; when the normalized set is empty the whole state is returned
unchanged (silent no-op).  The final three conjuncts show the normalized
list is sorted, duplicate-free, and consists exactly of the lower-casings
of the non-empty string entries. -/
theorem C5_bind_normalization (s : InputServiceState) (keys : List (Option String))
    (cb : Nat) (opts : ShortcutOptions) :
    (normalizeShortcutKeys keys = [] → BindShortcut s keys cb opts = s) ∧
    (normalizeShortcutKeys keys ≠ [] →
      BindShortcut s keys cb opts = { s with shortcuts := s.shortcuts ++
        [⟨jsJoin "+" (normalizeShortcutKeys keys), normalizeShortcutKeys keys,
          cb, opts⟩] }) ∧
    List.Sorted (· ≤ ·) (normalizeShortcutKeys keys) ∧
    (normalizeShortcutKeys keys).Nodup ∧
    (∀ x, x ∈ normalizeShortcutKeys keys ↔
      ∃ k, some k ∈ keys ∧ k ≠ "" ∧ x = jsToLower k) := by
  refine ⟨?_, ?_, normalizeShortcutKeys_sorted keys, normalizeShortcutKeys_nodup keys,
    normalizeShortcutKeys_mem keys⟩
  · intro h
    simp [BindShortcut, h]
  · intro h
    have hlen : ((normalizeShortcutKeys keys).length == 0) = false := by
      rw [beq_eq_false_iff_ne]
      exact fun h0 => h (List.length_eq_zero.mp h0)
    simp [BindShortcut, hlen]

/-- Witness for C5 at a concrete key list with duplicates, an empty entry
and a non-string entry. -/
theorem C5_witness :
    (normalizeShortcutKeys [some "KeyB", some "KeyA", none, some "", some "keya"] ≠ [] →
      BindShortcut ⟨[], [], (0, 0), [], []⟩
          [some "KeyB", some "KeyA", none, some "", some "keya"] 3 ⟨false, false, false, false⟩ =
        { (⟨[], [], (0, 0), [], []⟩ : InputServiceState) with shortcuts := [] ++
          [⟨jsJoin "+" (normalizeShortcutKeys [some "KeyB", some "KeyA", none, some "", some "keya"]),
            normalizeShortcutKeys [some "KeyB", some "KeyA", none, some "", some "keya"],
            3, ⟨false, false, false, false⟩⟩] }) ∧
    normalizeShortcutKeys [some "KeyB", some "KeyA", none, some "", some "keya"] = ["keya", "keyb"] ∧
    jsJoin "+" ["keya", "keyb"] = "keya+keyb" :=
  ⟨(C5_bind_normalization ⟨[], [], (0, 0), [], []⟩
      [some "KeyB", some "KeyA", none, some "", some "keya"] 3
      ⟨false, false, false, false⟩).2.1,
    by decide, by decide⟩

/-- C6: for a key list with non-empty normalization, `UnbindShortcut`
without a callback removes exactly the bindings whose canonical id equals
the normalized id of the given keys; with a callback it removes exactly
the bindings with that id whose callback is reference-identical to the
given one; in both cases the id is evicted from the active-shortcut set
and no other active id or other state is touched. -/
theorem C6_unbind_removal (s : InputServiceState) (keys : List (Option String))
    (callback : Option Nat) (hne : normalizeShortcutKeys keys ≠ []) :
    ((callback = none → (UnbindShortcut s keys callback).shortcuts =
        s.shortcuts.filter (fun sc =>
          sc.id != jsJoin "+" (normalizeShortcutKeys keys))) ∧
      (∀ cb, callback = some cb → (UnbindShortcut s keys callback).shortcuts =
        s.shortcuts.filter (fun sc =>
          sc.id != jsJoin "+" (normalizeShortcutKeys keys) || sc.callback != cb))) ∧
    (UnbindShortcut s keys callback).activeShortcuts.contains
        (jsJoin "+" (normalizeShortcutKeys keys)) = false ∧
    (∀ x, x ≠ jsJoin "+" (normalizeShortcutKeys keys) →
      (UnbindShortcut s keys callback).activeShortcuts.contains x =
        s.activeShortcuts.contains x) ∧
    (UnbindShortcut s keys callback).keysPressed = s.keysPressed ∧
    (UnbindShortcut s keys callback).mouseButtonsPressed = s.mouseButtonsPressed := by
  have hlen : ((normalizeShortcutKeys keys).length == 0) = false := by
    rw [beq_eq_false_iff_ne]
    exact fun h0 => hne (List.length_eq_zero.mp h0)
  have hun : UnbindShortcut s keys callback =
      { s with
        shortcuts := s.shortcuts.filter (fun sc =>
          if sc.id != jsJoin "+" (normalizeShortcutKeys keys) then true
          else
            match callback with
            | none => false
            | some cb => sc.callback != cb)
        activeShortcuts := setDelete s.activeShortcuts
          (jsJoin "+" (normalizeShortcutKeys keys)) } := by
    have hcond : ¬ (((normalizeShortcutKeys keys).length == 0) = true) := by
      rw [hlen]
      exact Bool.noConfusion
    unfold UnbindShortcut
    dsimp only
    rw [if_neg hcond]
  refine ⟨⟨?_, ?_⟩, ?_, ?_, ?_, ?_⟩
  · intro hc
    subst hc
    rw [hun]
    refine List.filter_congr (fun sc _ => ?_)
    by_cases h : sc.id = jsJoin "+" (normalizeShortcutKeys keys) <;> simp [h]
  · intro cb hc
    subst hc
    rw [hun]
    refine List.filter_congr (fun sc _ => ?_)
    by_cases h : sc.id = jsJoin "+" (normalizeShortcutKeys keys) <;> simp [h]
  · rw [hun]
    exact setDelete_contains_self _ _
  · intro x hx
    rw [hun]
    exact setDelete_contains_other _ _ x hx
  · rw [hun]
  · rw [hun]

/-- Witness for C6: a state with two bindings sharing the canonical id
`keya+keyb` and one unrelated binding; unbinding without a callback
removes both sharing bindings and evicts the id from the active set. -/
theorem C6_witness :
    normalizeShortcutKeys [some "KeyB", some "KeyA"] ≠ [] ∧
    ((UnbindShortcut
        ⟨["keya", "keyb"], [], (0, 0),
          [⟨"keya+keyb", ["keya", "keyb"], 1, ⟨false, false, false, false⟩⟩,
            ⟨"keya+keyb", ["keya", "keyb"], 2, ⟨false, false, false, false⟩⟩,
            ⟨"keyc", ["keyc"], 3, ⟨false, false, false, false⟩⟩],
          ["keya+keyb", "keyc"]⟩
        [some "KeyB", some "KeyA"] none).shortcuts =
      ([⟨"keya+keyb", ["keya", "keyb"], 1, ⟨false, false, false, false⟩⟩,
          ⟨"keya+keyb", ["keya", "keyb"], 2, ⟨false, false, false, false⟩⟩,
          ⟨"keyc", ["keyc"], 3, ⟨false, false, false, false⟩⟩] :
        List ShortcutBinding).filter (fun sc =>
          sc.id != jsJoin "+" (normalizeShortcutKeys [some "KeyB", some "KeyA"]))) ∧
    (UnbindShortcut
        ⟨["keya", "keyb"], [], (0, 0),
          [⟨"keya+keyb", ["keya", "keyb"], 1, ⟨false, false, false, false⟩⟩,
            ⟨"keya+keyb", ["keya", "keyb"], 2, ⟨false, false, false, false⟩⟩,
            ⟨"keyc", ["keyc"], 3, ⟨false, false, false, false⟩⟩],
          ["keya+keyb", "keyc"]⟩
        [some "KeyB", some "KeyA"] none).activeShortcuts.contains
      (jsJoin "+" (normalizeShortcutKeys [some "KeyB", some "KeyA"])) = false :=
  ⟨by decide,
    ((C6_unbind_removal
        ⟨["keya", "keyb"], [], (0, 0),
          [⟨"keya+keyb", ["keya", "keyb"], 1, ⟨false, false, false, false⟩⟩,
            ⟨"keya+keyb", ["keya", "keyb"], 2, ⟨false, false, false, false⟩⟩,
            ⟨"keyc", ["keyc"], 3, ⟨false, false, false, false⟩⟩],
          ["keya+keyb", "keyc"]⟩
        [some "KeyB", some "KeyA"] none (by decide)).1.1 rfl),
    ((C6_unbind_removal
        ⟨["keya", "keyb"], [], (0, 0),
          [⟨"keya+keyb", ["keya", "keyb"], 1, ⟨false, false, false, false⟩⟩,
            ⟨"keya+keyb", ["keya", "keyb"], 2, ⟨false, false, false, false⟩⟩,
            ⟨"keyc", ["keyc"], 3, ⟨false, false, false, false⟩⟩],
          ["keya+keyb", "keyc"]⟩
        [some "KeyB", some "KeyA"] none (by decide)).2.1)⟩

/- ### C3: IsKeyPressed lifecycle -/

/-- An event that can remove the held (lower-cased) key `k`: a key-up
whose derived identifier lower-cases to `k`, or a focus-loss reset. -/
def endsOrClears (k : String) : RawEvent → Bool
  | RawEvent.keyup e =>
    match getKeyboardCode e with
    | some c => jsToLower c == k
    | none => false
  | RawEvent.blur _ => true
  | _ => false

theorem keysPressed_persist (k : String) (s : InputServiceState)
    (h : s.keysPressed.contains k = true) (evs : List RawEvent)
    (hevs : ∀ ev ∈ evs, endsOrClears k ev = false) :
    (stateAfter s evs).keysPressed.contains k = true := by
  induction evs generalizing s with
  | nil => exact h
  | cons ev rest ih =>
    have hs : stateAfter s (ev :: rest) = stateAfter (step s ev).state rest := rfl
    rw [hs]
    have hev := hevs ev (List.mem_cons_self ev rest)
    refine ih (step s ev).state ?_ (fun e2 he => hevs e2 (List.mem_cons_of_mem ev he))
    cases ev with
    | keydown e =>
      cases hc : getKeyboardCode e with
      | none =>
        show (handleKeyDown s e).state.keysPressed.contains k = true
        unfold handleKeyDown
        rw [hc]
        exact h
      | some code =>
        rw [step_keydown_keysPressed s e code hc]
        exact setAdd_mono _ _ _ h
    | keyup e =>
      cases hc : getKeyboardCode e with
      | none =>
        show (handleKeyUp s e).state.keysPressed.contains k = true
        unfold handleKeyUp
        rw [hc]
        exact h
      | some code =>
        rw [step_keyup_keysPressed s e code hc]
        have hb : (jsToLower code == k) = false := by
          have h2 : (match getKeyboardCode e with
              | some c => jsToLower c == k
              | none => false) = false := hev
          rw [hc] at h2
          exact h2
        have hne : k ≠ jsToLower code := Ne.symm (beq_eq_false_iff_ne.mp hb)
        rw [setDelete_contains_other _ _ _ hne]
        exact h
    | blur t => simp [endsOrClears] at hev
    | focus t => exact h

theorem IsKeyPressed_eq (s : InputServiceState) (q : String) (hq : q ≠ "") :
    IsKeyPressed s (some q) = s.keysPressed.contains (jsToLower q) := by
  have hrfl : IsKeyPressed s (some q) =
      if (q.length == 0) = true then false
      else s.keysPressed.contains (jsToLower q) := rfl
  rw [hrfl, if_neg (by rw [string_beq_len_zero_false hq]; exact Bool.noConfusion)]

/-- C3: after a keyboard Begin (key-down) event deriving identifier
`code`, and through any further events that neither key-up that identifier
nor lose focus, `IsKeyPressed` answers `true` for every query string that
lower-cases like `code` (case-insensitivity); immediately after a matching
End (key-up) event it answers `false`; and it answers `false` for a
non-string (`none`) or empty-string query in every state. -/
theorem C3_iskeypressed_lifecycle (s : InputServiceState) (e : KeyboardEvent)
    (code : String) (h : getKeyboardCode e = some code) (q : String) (hq : q ≠ "")
    (hql : jsToLower q = jsToLower code) :
    (∀ evs, (∀ ev ∈ evs, endsOrClears (jsToLower code) ev = false) →
      IsKeyPressed (stateAfter (step s (RawEvent.keydown e)).state evs) (some q) = true) ∧
    (∀ s2 : InputServiceState, ∀ e2 : KeyboardEvent, ∀ code2 : String,
      getKeyboardCode e2 = some code2 → jsToLower code2 = jsToLower code →
      IsKeyPressed (step s2 (RawEvent.keyup e2)).state (some q) = false) ∧
    (∀ s2 : InputServiceState, IsKeyPressed s2 none = false ∧
      IsKeyPressed s2 (some "") = false) ∧
    (∀ s2 : InputServiceState, ∀ q2 : String, q2 ≠ "" → jsToLower q2 = jsToLower q →
      IsKeyPressed s2 (some q2) = IsKeyPressed s2 (some q)) := by
  refine ⟨?_, ?_, ?_, ?_⟩
  · intro evs hevs
    rw [IsKeyPressed_eq _ q hq, hql]
    refine keysPressed_persist (jsToLower code) _ ?_ evs hevs
    rw [step_keydown_keysPressed s e code h]
    exact setAdd_contains_self _ _
  · intro s2 e2 code2 h2 hl2
    rw [IsKeyPressed_eq _ q hq, hql, ← hl2]
    rw [step_keyup_keysPressed s2 e2 code2 h2]
    exact setDelete_contains_self _ _
  · intro s2
    exact ⟨rfl, rfl⟩
  · intro s2 q2 hq2 hll
    rw [IsKeyPressed_eq _ q2 hq2, IsKeyPressed_eq _ q hq, hll]

/-- Witness for C3: key-down of physical `KeyA`, queried (case-insensitively)
as `"KEYA"`, held across an unrelated key-up, released by a matching key-up. -/
theorem C3_witness :
    (getKeyboardCode ⟨some "KeyA", some "a", none⟩ = some "KeyA" ∧
      ("KEYA" : String) ≠ "" ∧ jsToLower "KEYA" = jsToLower "KeyA") ∧
    ((∀ evs, (∀ ev ∈ evs, endsOrClears (jsToLower "KeyA") ev = false) →
        IsKeyPressed (stateAfter
          (step (⟨[], [], (0, 0), [], []⟩ : InputServiceState)
            (RawEvent.keydown ⟨some "KeyA", some "a", none⟩)).state evs)
          (some "KEYA") = true) ∧
      (∀ s2 : InputServiceState, ∀ e2 : KeyboardEvent, ∀ code2 : String,
        getKeyboardCode e2 = some code2 → jsToLower code2 = jsToLower "KeyA" →
        IsKeyPressed (step s2 (RawEvent.keyup e2)).state (some "KEYA") = false) ∧
      (∀ s2 : InputServiceState, IsKeyPressed s2 none = false ∧
        IsKeyPressed s2 (some "") = false) ∧
      (∀ s2 : InputServiceState, ∀ q2 : String, q2 ≠ "" → jsToLower q2 = jsToLower "KEYA" →
        IsKeyPressed s2 (some q2) = IsKeyPressed s2 (some "KEYA"))) :=
  ⟨⟨by decide, by decide, by decide⟩,
    C3_iskeypressed_lifecycle ⟨[], [], (0, 0), [], []⟩ ⟨some "KeyA", some "a", none⟩
      "KeyA" (by decide) "KEYA" (by decide) (by decide)⟩

/- ### C10: the typing guard -/

/-- A state with two bindings sharing the canonical id `keya+keyb`
(callbacks 1 and 2), both member keys held, and the id active. -/
def dupBindState : InputServiceState :=
  ⟨["keya", "keyb"], [], (0, 0),
    [⟨"keya+keyb", ["keya", "keyb"], 1, ⟨false, false, false, false⟩⟩,
      ⟨"keya+keyb", ["keya", "keyb"], 2, ⟨false, false, false, false⟩⟩],
    ["keya+keyb"]⟩

/-- C7: in `dupBindState`, unbinding the key set with callback 1 removes
only the first binding yet also deletes the id from the active set; the
next keyboard event (an auto-repeat key-down of the still-held `KeyA`,
with a non-UI target) then invokes the surviving binding's callback 2
with phase Begin again, without the keys ever having been released (and
without any new `InputBegan` notification). -/
theorem C7_unbind_stale_active_refire :
    (UnbindShortcut dupBindState [some "KeyA", some "KeyB"] (some 1)).shortcuts =
      [⟨"keya+keyb", ["keya", "keyb"], 2, ⟨false, false, false, false⟩⟩] ∧
    (UnbindShortcut dupBindState [some "KeyA", some "KeyB"] (some 1)).activeShortcuts = [] ∧
    (UnbindShortcut dupBindState [some "KeyA", some "KeyB"] (some 1)).keysPressed =
      ["keya", "keyb"] ∧
    (step (UnbindShortcut dupBindState [some "KeyA", some "KeyB"] (some 1))
        (RawEvent.keydown ⟨some "KeyA", some "a", none⟩)).shortcutCalls =
      [⟨0, 2, InputState.Begin, "keya+keyb", false⟩] ∧
    (step (UnbindShortcut dupBindState [some "KeyA", some "KeyB"] (some 1))
        (RawEvent.keydown ⟨some "KeyA", some "a", none⟩)).began = [] := by
  decide

/- ### Single-binding analysis (for C1 and C8) -/

/-- Both member keys of a two-key binding are currently held. -/
def bothHeld (a c : String) (s : InputServiceState) : Bool :=
  s.keysPressed.contains a && s.keysPressed.contains c

/-- A keyboard event (key-down or key-up) whose target is not UI-consumed. -/
def keyboardNonUI : RawEvent → Bool
  | RawEvent.keydown e => !isGameProcessedEvent e.target
  | RawEvent.keyup e => !isGameProcessedEvent e.target
  | _ => false

/-- Number of invocations of callback `cb` in a trace. -/
def callsTo (cb : Nat) (calls : List ShortcutCall) : Nat :=
  (calls.filter (fun r => r.callback == cb)).length

/-- Number of phase-Begin invocations of callback `cb` in a trace. -/
def beginCallsTo (cb : Nat) (calls : List ShortcutCall) : Nat :=
  (calls.filter (fun r => r.callback == cb && r.phase == InputState.Begin)).length

theorem not_mem_of_contains_eq_false {l : List String} {x : String}
    (h : l.contains x = false) : x ∉ l :=
  fun hm => by
    rw [(contains_iff_mem l x).mpr hm] at h
    exact Bool.noConfusion h

theorem checkShortcutsList_single (kp : List String) (active : List String)
    (sc : ShortcutBinding) :
    checkShortcutsList kp false 0 [sc] active =
      if (sc.keys.all (fun k => kp.contains k)) && !(active.contains sc.id) then
        (setAdd active sc.id, [⟨0, sc.callback, InputState.Begin, sc.id, false⟩])
      else if (!(sc.keys.all (fun k => kp.contains k))) && active.contains sc.id then
        (setDelete active sc.id,
          if sc.options.fireOnEnd then
            [⟨0, sc.callback, InputState.End, sc.id, false⟩]
          else [])
      else (active, []) := by
  by_cases h1 : ((sc.keys.all (fun k => kp.contains k)) && !(active.contains sc.id)) = true
  · simp [checkShortcutsList, h1]
  · by_cases h2 : ((!(sc.keys.all (fun k => kp.contains k))) && active.contains sc.id) = true
    · simp [checkShortcutsList, h1, h2]
    · simp [checkShortcutsList, h1, h2]

theorem checkShortcutsStatus_single (s : InputServiceState) (e : KeyboardEvent)
    (sc : ShortcutBinding) (hs : s.shortcuts = [sc])
    (hgp : isGameProcessedEvent e.target = false) :
    checkShortcutsStatus s e =
      if (sc.keys.all (fun k => s.keysPressed.contains k)) &&
          !(s.activeShortcuts.contains sc.id) then
        ({ s with activeShortcuts := setAdd s.activeShortcuts sc.id },
          [⟨0, sc.callback, InputState.Begin, sc.id, false⟩])
      else if (!(sc.keys.all (fun k => s.keysPressed.contains k))) &&
          s.activeShortcuts.contains sc.id then
        ({ s with activeShortcuts := setDelete s.activeShortcuts sc.id },
          if sc.options.fireOnEnd then
            [⟨0, sc.callback, InputState.End, sc.id, false⟩]
          else [])
      else (s, []) := by
  obtain ⟨kp, mb, lm, scs, act⟩ := s
  replace hs : scs = [sc] := hs
  subst hs
  unfold checkShortcutsStatus
  dsimp only
  rw [hgp]
  rw [if_neg (fun h => Bool.noConfusion h), checkShortcutsList_single]
  by_cases h1 : ((sc.keys.all (fun k => kp.contains k)) && !(act.contains sc.id)) = true
  · rw [if_pos h1, if_pos h1]
  · rw [if_neg h1, if_neg h1]
    by_cases h2 : ((!(sc.keys.all (fun k => kp.contains k))) && act.contains sc.id) = true
    · rw [if_pos h2, if_pos h2]
    · rw [if_neg h2, if_neg h2]

theorem checkShortcutsStatus_single_analysis (s1 : InputServiceState) (e : KeyboardEvent)
    (a c : String) (sc : ShortcutBinding) (hk : sc.keys = [a, c])
    (hs : s1.shortcuts = [sc]) (hgp : isGameProcessedEvent e.target = false) :
    ((checkShortcutsStatus s1 e).1.activeShortcuts.contains sc.id = bothHeld a c s1) ∧
    (bothHeld a c s1 = false →
      beginCallsTo sc.callback (checkShortcutsStatus s1 e).2 = 0) ∧
    (bothHeld a c s1 = true → s1.activeShortcuts.contains sc.id = false →
      (checkShortcutsStatus s1 e).2 = [⟨0, sc.callback, InputState.Begin, sc.id, false⟩]) ∧
    (bothHeld a c s1 = true → s1.activeShortcuts.contains sc.id = true →
      (checkShortcutsStatus s1 e).2 = []) := by
  rw [checkShortcutsStatus_single s1 e sc hs hgp]
  have hall : (sc.keys.all (fun k => s1.keysPressed.contains k)) = bothHeld a c s1 := by
    rw [hk]
    simp [bothHeld]
  rw [hall]
  cases hB : bothHeld a c s1 with
  | true =>
    cases hA : s1.activeShortcuts.contains sc.id with
    | true =>
      simp only [Bool.true_and, Bool.not_true, Bool.and_false, Bool.and_true,
        Bool.false_and, if_false, Bool.false_eq_true, if_neg]
      refine ⟨?_, ?_, ?_, ?_⟩
      · exact hA
      · intro h
        exact Bool.noConfusion h
      · intro h1 h2
        exact Bool.noConfusion h2
      · intro h1 h2
        simp
    | false =>
      simp only [Bool.true_and, Bool.not_false, Bool.and_true, if_true]
      refine ⟨?_, ?_, ?_, ?_⟩
      · exact setAdd_contains_self _ _
      · intro h
        exact Bool.noConfusion h
      · intro h1 h2
        simp
      · intro h1 h2
        exact Bool.noConfusion h2
  | false =>
    cases hA : s1.activeShortcuts.contains sc.id with
    | true =>
      simp only [Bool.false_and, Bool.not_false, Bool.true_and, if_false,
        Bool.false_eq_true, if_true]
      refine ⟨?_, ?_, ?_, ?_⟩
      · exact setDelete_contains_self _ _
      · intro h
        by_cases hf : sc.options.fireOnEnd = true <;>
          simp [beginCallsTo, hf]
      · intro h1 h2
        exact h1.elim
      · intro h1 h2
        exact h1.elim
    | false =>
      simp only [Bool.false_and, Bool.and_false, if_false, Bool.false_eq_true]
      refine ⟨?_, ?_, ?_, ?_⟩
      · exact hA
      · intro h
        simp [beginCallsTo]
      · intro h1 h2
        exact h1.elim
      · intro h1 h2
        exact h1.elim

theorem step_single (a c : String) (sc : ShortcutBinding) (hk : sc.keys = [a, c])
    (s : InputServiceState) (hs : s.shortcuts = [sc]) (ev : RawEvent)
    (hev : keyboardNonUI ev = true)
    (hinv : s.activeShortcuts.contains sc.id = bothHeld a c s) :
    (step s ev).state.activeShortcuts.contains sc.id = bothHeld a c (step s ev).state ∧
    (bothHeld a c (step s ev).state = false →
      beginCallsTo sc.callback (step s ev).shortcutCalls = 0) ∧
    (bothHeld a c (step s ev).state = true → bothHeld a c s = false →
      (step s ev).shortcutCalls = [⟨0, sc.callback, InputState.Begin, sc.id, false⟩]) ∧
    (bothHeld a c (step s ev).state = true → bothHeld a c s = true →
      (step s ev).shortcutCalls = []) := by
  cases ev with
  | blur t => exact absurd hev (by simp [keyboardNonUI])
  | focus t => exact absurd hev (by simp [keyboardNonUI])
  | keydown e =>
    have hgp : isGameProcessedEvent e.target = false := by
      have h2 : (!isGameProcessedEvent e.target) = true := hev
      simpa using h2
    cases hc : getKeyboardCode e with
    | none =>
      have hstep : step s (RawEvent.keydown e) = ⟨s, [], [], []⟩ := by
        show handleKeyDown s e = _
        unfold handleKeyDown
        rw [hc]
      rw [hstep]
      refine ⟨hinv, fun _ => rfl, ?_, fun _ _ => rfl⟩
      intro h1 h2
      rw [h1] at h2
      exact Bool.noConfusion h2
    | some code =>
      rw [show step s (RawEvent.keydown e) = handleKeyDown s e from rfl,
        handleKeyDown_some s e code hc]
      dsimp only
      have hpost : bothHeld a c (checkShortcutsStatus
          { s with keysPressed := setAdd s.keysPressed (jsToLower code) } e).1 =
          bothHeld a c { s with keysPressed := setAdd s.keysPressed (jsToLower code) } := by
        unfold bothHeld
        rw [checkShortcutsStatus_keysPressed]
      obtain ⟨ha1, ha2, ha3, ha4⟩ := checkShortcutsStatus_single_analysis
        { s with keysPressed := setAdd s.keysPressed (jsToLower code) } e a c sc hk hs hgp
      refine ⟨?_, ?_, ?_, ?_⟩
      · rw [hpost]
        exact ha1
      · intro h
        rw [hpost] at h
        exact ha2 h
      · intro h1 h2
        rw [hpost] at h1
        exact ha3 h1 (hinv.trans h2)
      · intro h1 h2
        rw [hpost] at h1
        exact ha4 h1 (hinv.trans h2)
  | keyup e =>
    have hgp : isGameProcessedEvent e.target = false := by
      have h2 : (!isGameProcessedEvent e.target) = true := hev
      simpa using h2
    cases hc : getKeyboardCode e with
    | none =>
      have hstep : step s (RawEvent.keyup e) = ⟨s, [], [], []⟩ := by
        show handleKeyUp s e = _
        unfold handleKeyUp
        rw [hc]
      rw [hstep]
      refine ⟨hinv, fun _ => rfl, ?_, fun _ _ => rfl⟩
      intro h1 h2
      rw [h1] at h2
      exact Bool.noConfusion h2
    | some code =>
      rw [show step s (RawEvent.keyup e) = handleKeyUp s e from rfl,
        handleKeyUp_some s e code hc]
      dsimp only
      have hpost : bothHeld a c (checkShortcutsStatus
          { s with keysPressed := setDelete s.keysPressed (jsToLower code) } e).1 =
          bothHeld a c { s with keysPressed := setDelete s.keysPressed (jsToLower code) } := by
        unfold bothHeld
        rw [checkShortcutsStatus_keysPressed]
      obtain ⟨ha1, ha2, ha3, ha4⟩ := checkShortcutsStatus_single_analysis
        { s with keysPressed := setDelete s.keysPressed (jsToLower code) } e a c sc hk hs hgp
      refine ⟨?_, ?_, ?_, ?_⟩
      · rw [hpost]
        exact ha1
      · intro h
        rw [hpost] at h
        exact ha2 h
      · intro h1 h2
        rw [hpost] at h1
        exact ha3 h1 (hinv.trans h2)
      · intro h1 h2
        rw [hpost] at h1
        exact ha4 h1 (hinv.trans h2)

theorem stateAfter_single_inv (a c : String) (sc : ShortcutBinding)
    (hk : sc.keys = [a, c]) (evs : List RawEvent) :
    ∀ s : InputServiceState, (∀ ev ∈ evs, keyboardNonUI ev = true) →
      s.shortcuts = [sc] →
      s.activeShortcuts.contains sc.id = bothHeld a c s →
      (stateAfter s evs).shortcuts = [sc] ∧
      (stateAfter s evs).activeShortcuts.contains sc.id =
        bothHeld a c (stateAfter s evs) := by
  induction evs with
  | nil => exact fun s _ hs hinv => ⟨hs, hinv⟩
  | cons ev rest ih =>
    intro s hevs hs hinv
    have h1 : stateAfter s (ev :: rest) = stateAfter (step s ev).state rest := rfl
    rw [h1]
    have hev := hevs ev (List.mem_cons_self ev rest)
    have hstep := step_single a c sc hk s hs ev hev hinv
    exact ih (step s ev).state (fun e2 he => hevs e2 (List.mem_cons_of_mem ev he))
      ((step_shortcuts s ev).trans hs) hstep.1

theorem getD_eq_get (evs : List RawEvent) (j : Nat) (hj : j < evs.length) :
    evs.getD j (RawEvent.blur none) = evs.get ⟨j, hj⟩ := by
  rw [List.getD_eq_get?, List.get?_eq_get hj]
  rfl

theorem stateAfter_take_succ (s : InputServiceState) (evs : List RawEvent) (j : Nat)
    (hj : j < evs.length) :
    stateAfter s (evs.take (j + 1)) = (outAt s evs j).state := by
  unfold stateAfter outAt
  rw [List.take_succ, List.foldl_append, List.getElem?_eq_getElem hj]
  rw [getD_eq_get evs j hj]
  rfl

/-- C1: for a state holding exactly one registered binding on the two-key
set `[a, c]`, with the active-set/held-keys invariant satisfied and the
keys not both held initially, and for any sequence of keyboard
Begin/End (key-down/key-up) events with non-UI targets: at the first event
after which both keys are simultaneously held, the binding's callback is
invoked with phase Begin exactly once; it is invoked with phase Begin zero
times on every earlier event; and on every later event while both keys
remain continuously held it is not invoked at all (in either phase).
Arrival order of the two keys is arbitrary — any sequence satisfying the
first-time-both-held hypotheses qualifies. -/
theorem C1_shortcut_begin_exactly_once (a c : String) (sc : ShortcutBinding)
    (hk : sc.keys = [a, c]) (s0 : InputServiceState) (hs0 : s0.shortcuts = [sc])
    (hinv0 : s0.activeShortcuts.contains sc.id = bothHeld a c s0)
    (hstart : bothHeld a c s0 = false)
    (evs : List RawEvent) (hevs : ∀ ev ∈ evs, keyboardNonUI ev = true)
    (i : Nat) (hi : i < evs.length)
    (hfirst : bothHeld a c (stateAfter s0 (evs.take (i + 1))) = true)
    (hbefore : ∀ j, j < i → bothHeld a c (stateAfter s0 (evs.take (j + 1))) = false) :
    beginCallsTo sc.callback (outAt s0 evs i).shortcutCalls = 1 ∧
    (∀ j, j < i → beginCallsTo sc.callback (outAt s0 evs j).shortcutCalls = 0) ∧
    (∀ k, i < k → k < evs.length →
      (∀ m, i ≤ m → m ≤ k → bothHeld a c (stateAfter s0 (evs.take (m + 1))) = true) →
      callsTo sc.callback (outAt s0 evs k).shortcutCalls = 0) := by
  have hpre : ∀ j, (stateAfter s0 (evs.take j)).shortcuts = [sc] ∧
      (stateAfter s0 (evs.take j)).activeShortcuts.contains sc.id =
        bothHeld a c (stateAfter s0 (evs.take j)) := by
    intro j
    exact stateAfter_single_inv a c sc hk (evs.take j) s0
      (fun ev he => hevs ev (List.take_subset j evs he)) hs0 hinv0
  have houtAt : ∀ j, ∀ hj : j < evs.length, outAt s0 evs j =
      step (stateAfter s0 (evs.take j)) (evs.get ⟨j, hj⟩) := by
    intro j hj
    unfold outAt
    rw [getD_eq_get evs j hj]
  have hbefore2 : ∀ j, j ≤ i → bothHeld a c (stateAfter s0 (evs.take j)) = false := by
    intro j hj
    cases j with
    | zero => exact hstart
    | succ j0 => exact hbefore j0 (by omega)
  refine ⟨?_, ?_, ?_⟩
  · have hstep := step_single a c sc hk (stateAfter s0 (evs.take i)) (hpre i).1
      (evs.get ⟨i, hi⟩) (hevs _ (evs.get_mem i hi)) (hpre i).2
    have hfirst2 : bothHeld a c
        (step (stateAfter s0 (evs.take i)) (evs.get ⟨i, hi⟩)).state = true := by
      rw [← houtAt i hi, ← stateAfter_take_succ s0 evs i hi]
      exact hfirst
    have hcalls := hstep.2.2.1 hfirst2 (hbefore2 i (Nat.le_refl i))
    rw [houtAt i hi, hcalls]
    simp [beginCallsTo]
  · intro j hj
    have hjlen : j < evs.length := by omega
    have hstep := step_single a c sc hk (stateAfter s0 (evs.take j)) (hpre j).1
      (evs.get ⟨j, hjlen⟩) (hevs _ (evs.get_mem j hjlen)) (hpre j).2
    have hpost : bothHeld a c
        (step (stateAfter s0 (evs.take j)) (evs.get ⟨j, hjlen⟩)).state = false := by
      rw [← houtAt j hjlen, ← stateAfter_take_succ s0 evs j hjlen]
      exact hbefore j hj
    rw [houtAt j hjlen]
    exact hstep.2.1 hpost
  · intro k hik hklen hheld
    have hstep := step_single a c sc hk (stateAfter s0 (evs.take k)) (hpre k).1
      (evs.get ⟨k, hklen⟩) (hevs _ (evs.get_mem k hklen)) (hpre k).2
    have hkpos : k - 1 + 1 = k := by omega
    have hprev : bothHeld a c (stateAfter s0 (evs.take k)) = true := by
      have := hheld (k - 1) (by omega) (by omega)
      rwa [hkpos] at this
    have hpost : bothHeld a c
        (step (stateAfter s0 (evs.take k)) (evs.get ⟨k, hklen⟩)).state = true := by
      rw [← houtAt k hklen, ← stateAfter_take_succ s0 evs k hklen]
      exact hheld k (by omega) (Nat.le_refl k)
    have hcalls := hstep.2.2.2 hpost hprev
    rw [houtAt k hklen, hcalls]
    rfl

/-- The concrete two-key binding of the C1 witness scenario. -/
def scC1 : ShortcutBinding :=
  ⟨"keya+keyb", ["keya", "keyb"], 0, ⟨false, false, false, false⟩⟩

/-- Fresh service state with only the witness binding registered. -/
def s0C1 : InputServiceState := ⟨[], [], (0, 0), [scC1], []⟩

/-- Key-down of `KeyA` then key-down of `KeyB`, non-UI targets. -/
def evsC1 : List RawEvent :=
  [RawEvent.keydown ⟨some "KeyA", some "a", none⟩,
    RawEvent.keydown ⟨some "KeyB", some "b", none⟩]

/-- Witness for C1: `KeyA` down then `KeyB` down; both keys first become
held at index 1, where exactly one Begin invocation is recorded. -/
theorem C1_witness :
    (scC1.keys = ["keya", "keyb"] ∧ s0C1.shortcuts = [scC1] ∧
      s0C1.activeShortcuts.contains scC1.id = bothHeld "keya" "keyb" s0C1 ∧
      bothHeld "keya" "keyb" s0C1 = false ∧
      (∀ ev ∈ evsC1, keyboardNonUI ev = true) ∧ 1 < evsC1.length ∧
      bothHeld "keya" "keyb" (stateAfter s0C1 (evsC1.take 2)) = true ∧
      (∀ j, j < 1 → bothHeld "keya" "keyb" (stateAfter s0C1 (evsC1.take (j + 1))) = false)) ∧
    (beginCallsTo scC1.callback (outAt s0C1 evsC1 1).shortcutCalls = 1 ∧
      (∀ j, j < 1 → beginCallsTo scC1.callback (outAt s0C1 evsC1 j).shortcutCalls = 0) ∧
      (∀ k, 1 < k → k < evsC1.length →
        (∀ m, 1 ≤ m → m ≤ k →
          bothHeld "keya" "keyb" (stateAfter s0C1 (evsC1.take (m + 1))) = true) →
        callsTo scC1.callback (outAt s0C1 evsC1 k).shortcutCalls = 0)) :=
  ⟨⟨rfl, rfl, by decide, by decide, by decide, by decide, by decide, by decide⟩,
    C1_shortcut_begin_exactly_once "keya" "keyb" scC1 rfl s0C1 rfl (by decide) (by decide)
      evsC1 (by decide) 1 (by decide) (by decide) (by decide)⟩

/-- C8: a focus-loss event clears the held-keys, held-buttons and
active-shortcut sets and fires exactly one Focus/End notification on
`InputEnded` (nothing on `InputBegan`, no shortcut calls); consequently,
for a state holding one binding on `[a, c]`, a subsequent focus gain
followed by fresh key-down events for the two keys (non-UI targets)
invokes the binding's callback with phase Begin exactly once again — the
shortcut is not treated as already active. -/
theorem C8_blur_reset_refire (s : InputServiceState) (t : Option KeyTarget)
    (a c : String) (ha : a ≠ c) (sc : ShortcutBinding) (hk : sc.keys = [a, c])
    (hs : s.shortcuts = [sc])
    (e1 e2 : KeyboardEvent) (c1 c2 : String)
    (h1 : getKeyboardCode e1 = some c1) (h2 : getKeyboardCode e2 = some c2)
    (hl1 : jsToLower c1 = a) (hl2 : jsToLower c2 = c)
    (hgp1 : isGameProcessedEvent e1.target = false)
    (hgp2 : isGameProcessedEvent e2.target = false) :
    ((step s (RawEvent.blur t)).state.keysPressed = [] ∧
      (step s (RawEvent.blur t)).state.mouseButtonsPressed = [] ∧
      (step s (RawEvent.blur t)).state.activeShortcuts = [] ∧
      (step s (RawEvent.blur t)).ended =
        [⟨⟨InputType.Focus, InputState.End, none⟩, isGameProcessedEvent t⟩] ∧
      (step s (RawEvent.blur t)).began = [] ∧
      (step s (RawEvent.blur t)).shortcutCalls = []) ∧
    beginCallsTo sc.callback
      (step (step (step (step s (RawEvent.blur t)).state (RawEvent.focus t)).state
          (RawEvent.keydown e1)).state
        (RawEvent.keydown e2)).shortcutCalls = 1 := by
  refine ⟨⟨rfl, rfl, rfl, rfl, rfl, rfl⟩, ?_⟩
  have hevK1 : keyboardNonUI (RawEvent.keydown e1) = true := by
    simp [keyboardNonUI, hgp1]
  have hevK2 : keyboardNonUI (RawEvent.keydown e2) = true := by
    simp [keyboardNonUI, hgp2]
  have hinvF : (step (step s (RawEvent.blur t)).state
        (RawEvent.focus t)).state.activeShortcuts.contains sc.id =
      bothHeld a c (step (step s (RawEvent.blur t)).state (RawEvent.focus t)).state := rfl
  have hstep1 := step_single a c sc hk
    (step (step s (RawEvent.blur t)).state (RawEvent.focus t)).state hs
    (RawEvent.keydown e1) hevK1 hinvF
  have hs3k : (step (step (step s (RawEvent.blur t)).state (RawEvent.focus t)).state
      (RawEvent.keydown e1)).state.keysPressed = [a] := by
    rw [step_keydown_keysPressed _ e1 c1 h1, hl1]
    rfl
  have hboth3 : bothHeld a c (step (step (step s (RawEvent.blur t)).state
      (RawEvent.focus t)).state (RawEvent.keydown e1)).state = false := by
    unfold bothHeld
    rw [hs3k]
    simp [Ne.symm ha]
  have hstep2 := step_single a c sc hk
    (step (step (step s (RawEvent.blur t)).state (RawEvent.focus t)).state
      (RawEvent.keydown e1)).state
    ((step_shortcuts _ (RawEvent.keydown e1)).trans hs)
    (RawEvent.keydown e2) hevK2 hstep1.1
  have hs4k : (step (step (step (step s (RawEvent.blur t)).state
      (RawEvent.focus t)).state (RawEvent.keydown e1)).state
      (RawEvent.keydown e2)).state.keysPressed = [a, c] := by
    rw [step_keydown_keysPressed _ e2 c2 h2, hl2, hs3k]
    unfold setAdd
    rw [if_neg (fun hct => ha (List.mem_singleton.mp
      ((contains_iff_mem _ _).mp hct)).symm)]
    rfl
  have hboth4 : bothHeld a c (step (step (step (step s (RawEvent.blur t)).state
      (RawEvent.focus t)).state (RawEvent.keydown e1)).state
      (RawEvent.keydown e2)).state = true := by
    unfold bothHeld
    rw [hs4k]
    simp
  have hcalls := hstep2.2.2.1 hboth4 hboth3
  rw [hcalls]
  simp [beginCallsTo]

/-- The concrete binding of the C8 witness scenario. -/
def scC8 : ShortcutBinding :=
  ⟨"keya+keyb", ["keya", "keyb"], 9, ⟨false, false, false, false⟩⟩

/-- A state with both keys held and the shortcut active, about to lose focus. -/
def sC8 : InputServiceState :=
  ⟨["keya", "keyb"], [0], (3, 4), [scC8], ["keya+keyb"]⟩

/-- Witness for C8: blur, focus, `KeyA` down, `KeyB` down re-fires Begin once. -/
theorem C8_witness :
    (("keya" : String) ≠ "keyb" ∧ scC8.keys = ["keya", "keyb"] ∧
      sC8.shortcuts = [scC8] ∧
      getKeyboardCode ⟨some "KeyA", some "a", none⟩ = some "KeyA" ∧
      getKeyboardCode ⟨some "KeyB", some "b", none⟩ = some "KeyB" ∧
      jsToLower "KeyA" = "keya" ∧ jsToLower "KeyB" = "keyb") ∧
    (((step sC8 (RawEvent.blur none)).state.keysPressed = [] ∧
      (step sC8 (RawEvent.blur none)).state.mouseButtonsPressed = [] ∧
      (step sC8 (RawEvent.blur none)).state.activeShortcuts = [] ∧
      (step sC8 (RawEvent.blur none)).ended =
        [⟨⟨InputType.Focus, InputState.End, none⟩, isGameProcessedEvent none⟩] ∧
      (step sC8 (RawEvent.blur none)).began = [] ∧
      (step sC8 (RawEvent.blur none)).shortcutCalls = []) ∧
    beginCallsTo scC8.callback
      (step (step (step (step sC8 (RawEvent.blur none)).state (RawEvent.focus none)).state
          (RawEvent.keydown ⟨some "KeyA", some "a", none⟩)).state
        (RawEvent.keydown ⟨some "KeyB", some "b", none⟩)).shortcutCalls = 1) :=
  ⟨⟨by decide, rfl, rfl, by decide, by decide, by decide, by decide⟩,
    C8_blur_reset_refire sC8 none "keya" "keyb" (by decide) scC8 rfl rfl
      ⟨some "KeyA", some "a", none⟩ ⟨some "KeyB", some "b", none⟩ "KeyA" "KeyB"
      (by decide) (by decide) (by decide) (by decide) rfl rfl⟩
